import Mathlib

/-!
Verification of the rate-limiting / circuit-breaker / RBAC core of the
AI-Code-Reviewer service, shallowly embedded from the Python sources
`src/security/rate_limiter.py`, `src/security/circuit_breaker.py` and
`src/auth/rbac.py`.

Timestamps (`datetime.now().timestamp()`) are modelled as integers `ℤ`;
only their ordering and differences matter to the code under study.
The Redis sorted set backing one rate-limit key is modelled as a
duplicate-free `List ℤ` of scores; Redis set operations used by the code
(`zremrangebyscore`, `zcard`, `zadd`, `zrange 0 0`) are embedded below.
-/

namespace RateLimit

/-- The dict returned by `RateLimiter.check_rate_limit`: keys `allowed`,
`remaining`, `reset_at`, `limit`, and the presence of the `error` key
(recorded by `errorMarker`), which only the fail-open branch adds. -/
structure Decision where
  allowed : Bool
  remaining : ℤ
  resetAt : ℤ
  limit : ℤ
  errorMarker : Bool
deriving DecidableEq

/-- Models `zremrangebyscore(key, '-inf', window_start.timestamp())`: removes
every member with score ≤ `windowStart` (the Redis range is inclusive). -/
def prune (window : List ℤ) (windowStart : ℤ) : List ℤ :=
  window.filter (fun t => decide (windowStart < t))

/-- Models `zadd(key, {str(now.timestamp()): now.timestamp()})`: the member
string is the timestamp itself, so adding a timestamp that is already present
leaves the sorted set unchanged (the member is overwritten with equal score). -/
def zadd (window : List ℤ) (now : ℤ) : List ℤ :=
  if now ∈ window then window else window ++ [now]

/-- Models `zrange(key, 0, 0, withscores=True)`: the member with the smallest
score, `none` on an empty set. -/
def oldest : List ℤ → Option ℤ
  | [] => none
  | t :: ts =>
    match oldest ts with
    | none => some t
    | some m => some (min t m)

/-- One `check_rate_limit` call on a healthy store, acting on the sorted-set
state held under the identifier's key.  `now - windowSeconds` is
`window_start`.  Mirrors the `try` body of `RateLimiter.check_rate_limit`:
prune, count, then either append `now` and allow or deny with a `reset_at`
derived from the oldest surviving entry. -/
def check (maxRequests windowSeconds : ℤ) (window : List ℤ) (now : ℤ) :
    Decision × List ℤ :=
  let pruned := prune window (now - windowSeconds)
  if (pruned.length : ℤ) < maxRequests then
    ({ allowed := true
       remaining := maxRequests - (pruned.length : ℤ) - 1
       resetAt := now + windowSeconds
       limit := maxRequests
       errorMarker := false }, zadd pruned now)
  else
    ({ allowed := false
       remaining := 0
       resetAt :=
         match oldest pruned with
         | some o => o + windowSeconds
         | none => now + windowSeconds
       limit := maxRequests
       errorMarker := false }, pruned)

/-- Full `check_rate_limit` including the `except redis.RedisError` branch:
when the store raises (`storeOk = false`), fail open with the `error` marker
set, `remaining = max_requests` and `reset_at = now`; the stored window is
left as it was. -/
def checkRateLimit (storeOk : Bool) (maxRequests windowSeconds : ℤ)
    (window : List ℤ) (now : ℤ) : Decision × List ℤ :=
  if storeOk then check maxRequests windowSeconds window now
  else
    ({ allowed := true
       remaining := maxRequests
       resetAt := now
       limit := maxRequests
       errorMarker := true }, window)

/-- Run a sequence of healthy-store checks against one identifier at the given
call times, collecting the decisions and the final stored window. -/
def run (maxRequests windowSeconds : ℤ) (window : List ℤ) :
    List ℤ → List Decision × List ℤ
  | [] => ([], window)
  | now :: rest =>
    let r := check maxRequests windowSeconds window now
    let rr := run maxRequests windowSeconds r.2 rest
    (r.1 :: rr.1, rr.2)

/-- The call times of the checks in `ts` that are answered `allowed = true`
(one entry per call, duplicated timestamps kept). -/
def allowedTimes (maxRequests windowSeconds : ℤ) (window : List ℤ) :
    List ℤ → List ℤ
  | [] => []
  | now :: rest =>
    let r := check maxRequests windowSeconds window now
    (if r.1.allowed then [now] else []) ++
      allowedTimes maxRequests windowSeconds r.2 rest

/-- Number of elements of `l` lying in the trailing half-open interval
`(t - windowSeconds, t]`. -/
def countIn (windowSeconds : ℤ) (l : List ℤ) (t : ℤ) : ℕ :=
  (l.filter (fun a => decide (t - windowSeconds < a ∧ a ≤ t))).length

end RateLimit

namespace Circuit

/-- `CircuitState` from `src/security/circuit_breaker.py` (the source constant
`OPEN` is rendered `opened`, since `open` is a Lean keyword). -/
inductive CircuitState
  | closed
  | opened
  | halfOpen
deriving DecidableEq

/-- Mutable state of one `CircuitBreaker` instance together with its
constructor configuration. -/
structure CircuitBreaker where
  failureThreshold : ℕ
  timeoutSeconds : ℤ
  halfOpenAttempts : ℕ
  failureCount : ℕ
  lastFailureTime : Option ℤ
  state : CircuitState
  halfOpenSuccessCount : ℕ
deriving DecidableEq

/-- `CircuitBreaker.__init__`. -/
def CircuitBreaker.init (failureThreshold : ℕ) (timeoutSeconds : ℤ)
    (halfOpenAttempts : ℕ) : CircuitBreaker :=
  { failureThreshold := failureThreshold
    timeoutSeconds := timeoutSeconds
    halfOpenAttempts := halfOpenAttempts
    failureCount := 0
    lastFailureTime := none
    state := .closed
    halfOpenSuccessCount := 0 }

/-- `CircuitBreaker._should_attempt_reset`: true when no failure is recorded
or `now - last_failure_time ≥ timeout_seconds`. -/
def shouldAttemptReset (cb : CircuitBreaker) (now : ℤ) : Bool :=
  match cb.lastFailureTime with
  | none => true
  | some t => decide (cb.timeoutSeconds ≤ now - t)

/-- `CircuitBreaker._trip`: open the circuit. -/
def trip (cb : CircuitBreaker) : CircuitBreaker :=
  { cb with state := .opened, halfOpenSuccessCount := 0 }

/-- `CircuitBreaker._reset`: close the circuit. -/
def reset (cb : CircuitBreaker) : CircuitBreaker :=
  { cb with state := .closed, failureCount := 0, halfOpenSuccessCount := 0
            lastFailureTime := none }

/-- `CircuitBreaker._on_success`. -/
def onSuccess (cb : CircuitBreaker) : CircuitBreaker :=
  if cb.state = .halfOpen then
    let cb' := { cb with halfOpenSuccessCount := cb.halfOpenSuccessCount + 1 }
    if cb'.halfOpenAttempts ≤ cb'.halfOpenSuccessCount then reset cb' else cb'
  else if cb.state = .closed then { cb with failureCount := 0 }
  else cb

/-- `CircuitBreaker._on_failure` (`datetime.now()` inside it is the call's
`now`). -/
def onFailure (cb : CircuitBreaker) (now : ℤ) : CircuitBreaker :=
  let cb' := { cb with failureCount := cb.failureCount + 1
                       lastFailureTime := some now }
  if cb'.state = .halfOpen then trip cb'
  else if cb'.failureThreshold ≤ cb'.failureCount then trip cb'
  else cb'

/-- What one `call` did: `ok` (operation ran and returned), `opError`
(operation ran and raised; the exception propagates), or `openError`
(`CircuitBreakerOpenError` raised by the breaker itself). -/
inductive CallResult
  | ok
  | opError
  | openError
deriving DecidableEq

/-- Outcome of one `call`: whether the wrapped operation was invoked at all,
and how the call ended. -/
structure CallOutcome where
  invoked : Bool
  result : CallResult
deriving DecidableEq

/-- `CircuitBreaker.call`.  The wrapped operation is abstracted by whether it
would succeed (`opSucceeds`); `now` is the wall-clock time of the call.  On
the OPEN fast path the operation is not invoked and
`CircuitBreakerOpenError` is raised (`invoked := false, result := .openError`). -/
def call (cb : CircuitBreaker) (now : ℤ) (opSucceeds : Bool) :
    CallOutcome × CircuitBreaker :=
  if cb.state = .opened then
    if shouldAttemptReset cb now then
      let cb' := { cb with state := .halfOpen }
      if opSucceeds then (⟨true, .ok⟩, onSuccess cb')
      else (⟨true, .opError⟩, onFailure cb' now)
    else (⟨false, .openError⟩, cb)
  else
    if opSucceeds then (⟨true, .ok⟩, onSuccess cb)
    else (⟨true, .opError⟩, onFailure cb now)

/-- Run a sequence of calls; each event is the wall-clock time of the call
paired with whether the wrapped operation succeeds. -/
def runCalls (cb : CircuitBreaker) (evs : List (ℤ × Bool)) : CircuitBreaker :=
  evs.foldl (fun c e => (call c e.1 e.2).2) cb

end Circuit

namespace Rbac

/-- `Role` from `src/auth/rbac.py`. -/
inductive Role
  | admin
  | developer
  | reviewer
  | viewer
deriving DecidableEq

/-- `Permission` from `src/auth/rbac.py`. -/
inductive Permission
  | configureBot
  | viewReports
  | approveReviews
  | manageRules
  | viewAnalytics
deriving DecidableEq

/-- `Role.value`. -/
def Role.value : Role → String
  | .admin => "admin"
  | .developer => "developer"
  | .reviewer => "reviewer"
  | .viewer => "viewer"

/-- `Permission.value`. -/
def Permission.value : Permission → String
  | .configureBot => "configure_bot"
  | .viewReports => "view_reports"
  | .approveReviews => "approve_reviews"
  | .manageRules => "manage_rules"
  | .viewAnalytics => "view_analytics"

/-- Models the `Permission(p)` enum constructor call: yields the member whose
value is `s`, and `none` where Python raises `ValueError` (no member has
value `s`). -/
def Permission.ofValue (s : String) : Option Permission :=
  if s = "configure_bot" then some .configureBot
  else if s = "view_reports" then some .viewReports
  else if s = "approve_reviews" then some .approveReviews
  else if s = "manage_rules" then some .manageRules
  else if s = "view_analytics" then some .viewAnalytics
  else none

/-- The static `self.role_permissions` table built in `RBACManager.__init__`. -/
def rolePermissions : Role → List Permission
  | .admin => [.configureBot, .viewReports, .approveReviews, .manageRules,
               .viewAnalytics]
  | .developer => [.viewReports, .approveReviews, .viewAnalytics]
  | .reviewer => [.viewReports, .approveReviews]
  | .viewer => [.viewReports]

/-- Python exception classes that the embedded code can raise. -/
inductive PyExcClass
  | valueError
  | permissionError
deriving DecidableEq

/-- A raised Python exception: its class and its message. -/
structure PyError where
  cls : PyExcClass
  msg : String
deriving DecidableEq

/-- The JWT payload dict built by `create_token` (timestamps in seconds). -/
structure JwtPayload where
  userId : String
  role : String
  permissions : List String
  exp : ℤ
  iat : ℤ
deriving DecidableEq

/-- A JWT as relevant to this code: its payload and an abstraction of its
HS256 signature, namely the secret it was signed with.  A forged, corrupted
or differently-signed token is one whose `sigKey` differs from the verifying
secret. -/
structure JwtToken where
  payload : JwtPayload
  sigKey : String
deriving DecidableEq

/-- PyJWT error kinds relevant here (`jwt.ExpiredSignatureError` is a
subclass of `jwt.InvalidTokenError`; `decode` raises the more specific one). -/
inductive JwtError
  | expiredSignature
  | invalidToken
deriving DecidableEq

/-- `jwt.encode(payload, secret, algorithm='HS256')`. -/
def jwtEncode (p : JwtPayload) (secret : String) : JwtToken := ⟨p, secret⟩

/-- `jwt.decode(token, secret, algorithms=['HS256'])`: the signature is
verified first, then the `exp` claim (expired when `exp ≤ now`, PyJWT's
`exp <= now - leeway` with zero leeway). -/
def jwtDecode (t : JwtToken) (secret : String) (now : ℤ) :
    Except JwtError JwtPayload :=
  if t.sigKey ≠ secret then .error .invalidToken
  else if t.payload.exp ≤ now then .error .expiredSignature
  else .ok t.payload

/-- An `RBACManager` instance after construction succeeded (the permission
table is the static `rolePermissions` above). -/
structure RBACManager where
  jwtSecret : String
deriving DecidableEq

/-- `RBACManager._get_jwt_secret`: reads `JWT_SECRET` from the environment
(`env`), raising `ValueError` when it is unset or empty (`if not secret`) or
shorter than 32 characters. -/
def getJwtSecret (env : Option String) : Except PyError String :=
  match env with
  | none =>
    .error ⟨.valueError, "JWT_SECRET environment variable must be set"⟩
  | some s =>
    if s = "" then
      .error ⟨.valueError, "JWT_SECRET environment variable must be set"⟩
    else if s.length < 32 then
      .error ⟨.valueError, "JWT_SECRET must be at least 32 characters long"⟩
    else .ok s

/-- `RBACManager.__init__`: construction succeeds exactly when
`_get_jwt_secret` does. -/
def RBACManager.init (env : Option String) : Except PyError RBACManager :=
  match getJwtSecret env with
  | .error e => .error e
  | .ok s => .ok ⟨s⟩

/-- `RBACManager.create_token` at wall-clock time `now`
(`expires_in_hours` converted to seconds; `iat = now`). -/
def createToken (mgr : RBACManager) (userId : String) (role : Role)
    (expiresInHours : ℤ) (now : ℤ) : JwtToken :=
  jwtEncode
    { userId := userId
      role := role.value
      permissions := (rolePermissions role).map Permission.value
      exp := now + expiresInHours * 3600
      iat := now }
    mgr.jwtSecret

/-- `RBACManager.verify_token`: re-raises PyJWT's two failure kinds as
`ValueError` with distinct messages. -/
def verifyToken (mgr : RBACManager) (t : JwtToken) (now : ℤ) :
    Except PyError JwtPayload :=
  match jwtDecode t mgr.jwtSecret now with
  | .ok p => .ok p
  | .error .expiredSignature => .error ⟨.valueError, "Token has expired"⟩
  | .error .invalidToken =>
    .error ⟨.valueError, "Invalid token: Signature verification failed"⟩

/-- The class of the raised exception, `none` on success. -/
def errClass (r : Except PyError JwtPayload) : Option PyExcClass :=
  match r with
  | .error e => some e.cls
  | .ok _ => none

/-- `RBACManager.has_permission`: verifies the token and parses each embedded
permission string through the `Permission` constructor; every `ValueError`
(from `verify_token` or from `Permission(p)`) is caught and collapsed to
`False`.  All exceptions this body can raise are `ValueError`s, so the
function never propagates an exception. -/
def hasPermission (mgr : RBACManager) (t : JwtToken) (now : ℤ)
    (required : Permission) : Bool :=
  match verifyToken mgr t now with
  | .error _ => false
  | .ok p =>
    match p.permissions.mapM Permission.ofValue with
    | none => false
    | some perms => decide (required ∈ perms)

/-- The default `JWT_SECRET` placeholder value named by the repository's own
`src/security/env_validator.py` and `config/settings.py`. -/
def placeholderSecret : String :=
  "your-jwt-secret-key-at-least-32-characters-long-please-change-this"

/-- A 32-character non-placeholder secret for concrete instances. -/
def testSecret : String := "0123456789abcdef0123456789abcdef"

end Rbac

open RateLimit Circuit Rbac

/-! ### Rate limiter lemmas -/

theorem mem_allowedTimes (m w : ℤ) :
    ∀ (ts window : List ℤ) (s : ℤ), s ∈ allowedTimes m w window ts → s ∈ ts := by
  intro ts
  induction ts with
  | nil =>
    intro window s hs
    simp [allowedTimes] at hs
  | cons now rest ih =>
    intro window s hs
    simp only [allowedTimes] at hs
    rcases List.mem_append.1 hs with h1 | h2
    · revert h1
      split
      · intro h1
        simp only [List.mem_singleton] at h1
        subst h1
        exact List.mem_cons_self _ _
      · intro h1
        simp at h1
    · exact List.mem_cons_of_mem _ (ih _ _ h2)

theorem countIn_cons (w a : ℤ) (l : List ℤ) (s : ℤ) :
    countIn w (a :: l) s
      = (if s - w < a ∧ a ≤ s then 1 else 0) + countIn w l s := by
  simp only [countIn, List.filter_cons]
  by_cases h : s - w < a ∧ a ≤ s
  · simp [h, Nat.add_comm]
  · simp [h]

theorem countIn_eq_zero (w : ℤ) (l : List ℤ) (s : ℤ) (h : ∀ a ∈ l, s < a) :
    countIn w l s = 0 := by
  unfold countIn
  rw [List.length_eq_zero, List.filter_eq_nil_iff]
  intro a ha
  simp only [decide_eq_true_eq, not_and]
  intro _
  exact not_le.2 (h a ha)

theorem length_filter_le_of_imp (l : List ℤ) (p q : ℤ → Bool)
    (h : ∀ a ∈ l, p a = true → q a = true) :
    (l.filter p).length ≤ (l.filter q).length := by
  induction l with
  | nil => simp
  | cons a l ih =>
    have ih' := ih (fun b hb => h b (List.mem_cons_of_mem _ hb))
    by_cases hp : p a = true
    · have hq := h a (List.mem_cons_self _ _) hp
      simp [List.filter_cons, hp, hq]
      omega
    · have hp' : p a = false := by
        cases hpa : p a
        · rfl
        · exact absurd hpa hp
      by_cases hq : q a = true
      · simp [List.filter_cons, hp', hq]
        omega
      · have hq' : q a = false := by
          cases hqa : q a
          · rfl
          · exact absurd hqa hq
        simp [List.filter_cons, hp', hq']
        omega

theorem exists_max (l : List ℤ) (h : l ≠ []) : ∃ s, s ∈ l ∧ ∀ a ∈ l, a ≤ s := by
  induction l with
  | nil => exact absurd rfl h
  | cons a l ih =>
    rcases eq_or_ne l [] with rfl | hl
    · refine ⟨a, List.mem_cons_self _ _, ?_⟩
      intro b hb
      simp only [List.mem_singleton] at hb
      omega
    · obtain ⟨s, hs, hle⟩ := ih hl
      rcases le_total a s with hh | hh
      · refine ⟨s, List.mem_cons_of_mem _ hs, ?_⟩
        intro b hb
        rcases List.mem_cons.1 hb with rfl | hb
        · exact hh
        · exact hle b hb
      · refine ⟨a, List.mem_cons_self _ _, ?_⟩
        intro b hb
        rcases List.mem_cons.1 hb with rfl | hb
        · exact le_refl b
        · exact le_trans (hle b hb) hh

theorem filter_win_prune (window : List ℤ) (now w s : ℤ) (hnow : now < s) :
    (prune window (now - w)).filter (fun a => decide (s - w < a ∧ a ≤ s))
      = window.filter (fun a => decide (s - w < a ∧ a ≤ s)) := by
  unfold prune
  rw [List.filter_filter]
  apply List.filter_congr
  intro a _
  by_cases h : s - w < a ∧ a ≤ s
  · have h2 : now - w < a := by omega
    simp [h, h2]
  · simp [h]

theorem allowed_step_bound (m w : ℤ) :
    ∀ (ts window : List ℤ),
      ts.Sorted (· < ·) →
      (∀ x ∈ window, ∀ y ∈ ts, x < y) →
      window.Nodup →
      ∀ s ∈ allowedTimes m w window ts,
        ((window.filter (fun a => decide (s - w < a ∧ a ≤ s))).length : ℤ)
          + (countIn w (allowedTimes m w window ts) s : ℤ) ≤ m := by
  intro ts
  induction ts with
  | nil =>
    intro window _ _ _ s hs
    simp [allowedTimes] at hs
  | cons now rest ih =>
    intro window hsort hlt hnd s hs
    obtain ⟨hnowrest, hsort'⟩ := List.sorted_cons.1 hsort
    have hwnow : ∀ x ∈ window, x < now :=
      fun x hx => hlt x hx now (List.mem_cons_self _ _)
    have hprsub : ∀ x ∈ prune window (now - w), x ∈ window := by
      intro x hx
      exact (List.mem_filter.1 hx).1
    have hprnd : (prune window (now - w)).Nodup := hnd.filter _
    have hprnow : ∀ x ∈ prune window (now - w), x < now :=
      fun x hx => hwnow x (hprsub x hx)
    have hnotmem : now ∉ prune window (now - w) := by
      intro hmem
      exact absurd (hprnow now hmem) (lt_irrefl now)
    by_cases hcnt : ((prune window (now - w)).length : ℤ) < m
    · -- the check at `now` is allowed and appends `now`
      have hAT : allowedTimes m w window (now :: rest)
          = now :: allowedTimes m w (prune window (now - w) ++ [now]) rest := by
        simp [allowedTimes, check, hcnt, zadd, hnotmem]
      rw [hAT] at hs ⊢
      rcases List.mem_cons.1 hs with rfl | hsA
      · -- s = now
        rw [countIn_cons]
        have hz : countIn w
            (allowedTimes m w (prune window (s - w) ++ [s]) rest) s = 0 := by
          apply countIn_eq_zero
          intro a ha
          exact hnowrest a (mem_allowedTimes m w rest _ a ha)
        have hfw : window.filter (fun a => decide (s - w < a ∧ a ≤ s))
            = prune window (s - w) := by
          unfold prune
          apply List.filter_congr
          intro a ha
          have : a ≤ s := le_of_lt (hwnow a ha)
          by_cases h2 : s - w < a
          · simp [h2, this]
          · simp [h2]
        rw [hz, hfw]
        by_cases h2 : s - w < s ∧ s ≤ s
        · simp only [h2, if_true]
          push_cast
          omega
        · simp only [h2, if_false]
          push_cast
          omega
      · -- s is allowed later, in `rest`
        have hsrest : s ∈ rest := mem_allowedTimes m w rest _ s hsA
        have hnows : now < s := hnowrest s hsrest
        rw [countIn_cons]
        have hlt' : ∀ x ∈ prune window (now - w) ++ [now], ∀ y ∈ rest, x < y := by
          intro x hx y hy
          rcases List.mem_append.1 hx with hx | hx
          · exact hlt x (hprsub x hx) y (List.mem_cons_of_mem _ hy)
          · simp only [List.mem_singleton] at hx
            subst hx
            exact hnowrest y hy
        have hnd' : (prune window (now - w) ++ [now]).Nodup := by
          rw [List.nodup_append]
          refine ⟨hprnd, List.nodup_singleton _, ?_⟩
          intro x hx
          simp only [List.mem_singleton]
          intro hxe
          subst hxe
          exact hnotmem hx
        have IH := ih (prune window (now - w) ++ [now]) hsort' hlt' hnd' s hsA
        rw [List.filter_append] at IH
        rw [List.length_append] at IH
        rw [filter_win_prune window now w s hnows] at IH
        have hsing : ([now].filter (fun a => decide (s - w < a ∧ a ≤ s))).length
            = if s - w < now ∧ now ≤ s then 1 else 0 := by
          by_cases h2 : s - w < now ∧ now ≤ s
          · simp [List.filter_singleton, h2]
          · simp [List.filter_singleton, h2]
        rw [hsing] at IH
        by_cases h2 : s - w < now ∧ now ≤ s
        · simp only [h2, if_true] at IH ⊢
          push_cast at IH ⊢
          omega
        · simp only [h2, if_false] at IH ⊢
          push_cast at IH ⊢
          omega
    · -- the check at `now` is denied; the stored window is just pruned
      have hAT : allowedTimes m w window (now :: rest)
          = allowedTimes m w (prune window (now - w)) rest := by
        simp [allowedTimes, check, hcnt]
      rw [hAT] at hs ⊢
      have hsrest : s ∈ rest := mem_allowedTimes m w rest _ s hs
      have hnows : now < s := hnowrest s hsrest
      have hlt' : ∀ x ∈ prune window (now - w), ∀ y ∈ rest, x < y :=
        fun x hx y hy => hlt x (hprsub x hx) y (List.mem_cons_of_mem _ hy)
      have IH := ih (prune window (now - w)) hsort' hlt' hprnd s hs
      rw [filter_win_prune window now w s hnows] at IH
      exact IH

theorem countIn_le_of_allowed_bound (w m : ℤ) (hm : 0 ≤ m) (l : List ℤ)
    (h : ∀ s ∈ l, (countIn w l s : ℤ) ≤ m) :
    ∀ t : ℤ, (countIn w l t : ℤ) ≤ m := by
  intro t
  by_cases hnil : l.filter (fun a => decide (t - w < a ∧ a ≤ t)) = []
  · simp only [countIn, hnil, List.length_nil, Nat.cast_zero]
    exact hm
  · obtain ⟨s, hsmem, hsmax⟩ := exists_max _ hnil
    have hsl : s ∈ l := (List.mem_filter.1 hsmem).1
    have hsin : t - w < s ∧ s ≤ t := by
      have := (List.mem_filter.1 hsmem).2
      simpa using this
    refine le_trans ?_ (h s hsl)
    have hmono := length_filter_le_of_imp l
      (fun a => decide (t - w < a ∧ a ≤ t))
      (fun a => decide (s - w < a ∧ a ≤ s)) ?_
    · exact_mod_cast hmono
    · intro a ha hpa
      simp only [decide_eq_true_eq] at hpa ⊢
      have hafil : a ∈ l.filter (fun b => decide (t - w < b ∧ b ≤ t)) :=
        List.mem_filter.2 ⟨ha, by simpa using hpa⟩
      have hasel : a ≤ s := hsmax a hafil
      omega

/-- C1 (amended): provided the call timestamps are strictly increasing (so no
two calls share a Redis member), for every `max_requests > 0` and
`window_seconds > 0` the number of calls answered `allowed = true` whose
timestamps lie in any trailing `window_seconds` interval never exceeds
`max_requests`; every allowed decision reports
`remaining = max_requests - count - 1` where `count` is the number of
surviving entries before the append; and with `max_requests = 3`,
`window_seconds = 60`, four rapid checks at distinct instants yield
`[allowed, allowed, allowed, denied]`. -/
theorem rateLimiter_sliding_window (m w : ℤ) (ts : List ℤ)
    (hm : 0 < m) (hw : 0 < w) (hts : ts.Sorted (· < ·)) :
    (∀ t : ℤ, (countIn w (allowedTimes m w [] ts) t : ℤ) ≤ m) ∧
    (∀ (window : List ℤ) (now : ℤ),
        ((prune window (now - w)).length : ℤ) < m →
        (check m w window now).1.allowed = true ∧
        (check m w window now).1.remaining
          = m - ((prune window (now - w)).length : ℤ) - 1) ∧
    ((run 3 60 [] [0, 1, 2, 3]).1.map (fun d => d.allowed)
        = [true, true, true, false]) := by
  refine ⟨?_, ?_, by rfl⟩
  · have hA := allowed_step_bound m w ts []
      hts (by intro x hx; simp at hx) List.nodup_nil
    apply countIn_le_of_allowed_bound w m (le_of_lt hm)
    intro s hs
    have := hA s hs
    simpa using this
  · intro window now h
    constructor
    · simp [check, h]
    · simp [check, h]

/-- Witness for `rateLimiter_sliding_window` at `max_requests = 3`,
`window_seconds = 60`, call times `0, 1, 2, 3`. -/
theorem rateLimiter_sliding_window_witness :
    (0 : ℤ) < 3 ∧ (0 : ℤ) < 60 ∧
      List.Sorted (· < ·) [(0 : ℤ), 1, 2, 3] ∧
      (countIn 60 (allowedTimes 3 60 [] [0, 1, 2, 3]) 3 : ℤ) ≤ 3 :=
  ⟨by decide, by decide, by decide,
    (rateLimiter_sliding_window 3 60 [0, 1, 2, 3]
      (by decide) (by decide) (by decide)).1 3⟩

/-- C1 counterexample: the claim as stated, quantifying over every sequence of
calls, fails when consecutive calls carry the same timestamp: the Redis
member is the timestamp string, so equal timestamps collapse to one entry
and with `max_requests = 3`, `window_seconds = 60` four calls at one instant
are all allowed — 4 allowed calls inside one trailing 60-second window. -/
theorem rateLimiter_sliding_window_counterexample :
    (0 : ℤ) < 3 ∧ (0 : ℤ) < 60 ∧
      ((run 3 60 [] [0, 0, 0, 0]).1.map (fun d => d.allowed)
        = [true, true, true, true]) ∧
      ¬ ((countIn 60 (allowedTimes 3 60 [] [0, 0, 0, 0]) 0 : ℤ) ≤ 3) := by
  refine ⟨by decide, by decide, by rfl, by decide⟩

/-- C5: if the shared counting store raises during `check_rate_limit`, the
call fails open: it returns `allowed = true` with the `'error'` marker key in
the decision, for every `max_requests`, `window_seconds`, stored window and
call time, and the stored window is left untouched. -/
theorem rateLimiter_fail_open (m w : ℤ) (window : List ℤ) (now : ℤ) :
    (checkRateLimit false m w window now).1.allowed = true ∧
    (checkRateLimit false m w window now).1.errorMarker = true ∧
    (checkRateLimit false m w window now).2 = window := by
  refine ⟨rfl, rfl, rfl⟩

/-- C7: whenever `check_rate_limit` denies (the pruned window already holds
at least `max_requests` entries), no new timestamp is recorded — the stored
window is exactly the pruned one — and the decision is `allowed = false`,
`remaining = 0`, with `reset_at` the oldest surviving entry's timestamp plus
`window_seconds`, falling back to `now + window_seconds` on an empty window. -/
theorem rateLimiter_denied_frame (m w : ℤ) (window : List ℤ) (now : ℤ)
    (h : m ≤ ((prune window (now - w)).length : ℤ)) :
    (check m w window now).1.allowed = false ∧
    (check m w window now).1.remaining = 0 ∧
    (check m w window now).2 = prune window (now - w) ∧
    (∀ o, oldest (prune window (now - w)) = some o →
        (check m w window now).1.resetAt = o + w) ∧
    (oldest (prune window (now - w)) = none →
        (check m w window now).1.resetAt = now + w) := by
  have h' : ¬ (((prune window (now - w)).length : ℤ) < m) := not_lt.2 h
  refine ⟨by simp [check, h'], by simp [check, h'], by simp [check, h'], ?_, ?_⟩
  · intro o ho
    simp [check, h', ho]
  · intro ho
    simp [check, h', ho]

/-- Witness for `rateLimiter_denied_frame`: one stored entry at time 5,
`max_requests = 1`, `window_seconds = 60`, check at time 10 — denied,
nothing recorded, `reset_at = 5 + 60 = 65`. -/
theorem rateLimiter_denied_frame_witness :
    (1 : ℤ) ≤ ((prune [(5 : ℤ)] (10 - 60)).length : ℤ) ∧
      (check 1 60 [(5 : ℤ)] 10).1.allowed = false ∧
      (check 1 60 [(5 : ℤ)] 10).1.resetAt = 65 := by
  refine ⟨by decide, (rateLimiter_denied_frame 1 60 [5] 10 (by decide)).1, ?_⟩
  have h4 := (rateLimiter_denied_frame 1 60 [5] 10 (by decide)).2.2.2.1 5 (by decide)
  simpa using h4

/-! ### Circuit breaker lemmas -/

theorem runCalls_cons (cb : CircuitBreaker) (e : ℤ × Bool)
    (evs : List (ℤ × Bool)) :
    runCalls cb (e :: evs) = runCalls (call cb e.1 e.2).2 evs := rfl

theorem runFailures_trips :
    ∀ (ts : List ℤ) (cb : CircuitBreaker),
      cb.state = .closed →
      cb.failureCount < cb.failureThreshold →
      cb.failureCount + ts.length = cb.failureThreshold →
      (runCalls cb (ts.map (fun t => (t, false)))).state = .opened := by
  intro ts
  induction ts with
  | nil =>
    intro cb _ hlt hsum
    simp only [List.length_nil, Nat.add_zero] at hsum
    omega
  | cons now rest ih =>
    intro cb hst hlt hsum
    have hcall : (call cb now false).2 = onFailure cb now := by
      simp [call, hst]
    rw [List.map_cons, runCalls_cons]
    simp only at hcall
    rw [hcall]
    simp only [List.length_cons] at hsum
    by_cases hth : cb.failureThreshold ≤ cb.failureCount + 1
    · have hrest : rest = [] := by
        have : rest.length = 0 := by omega
        exact List.eq_nil_of_length_eq_zero this
      have htrip : onFailure cb now
          = trip { cb with failureCount := cb.failureCount + 1
                           lastFailureTime := some now } := by
        simp [onFailure, hst, hth]
      subst hrest
      rw [htrip]
      rfl
    · have hnext : onFailure cb now
          = { cb with failureCount := cb.failureCount + 1
                      lastFailureTime := some now } := by
        simp [onFailure, hst, hth]
      rw [hnext]
      apply ih
      · exact hst
      · simp only
        omega
      · simp only
        omega

/-- C2: with `failure_threshold = n > 0`, `n` consecutive calls whose wrapped
operation raises take a freshly constructed breaker from CLOSED to OPEN; and
any call made while the state is OPEN with strictly less than
`timeout_seconds` elapsed since `last_failure_time` raises
`CircuitBreakerOpenError` without invoking the wrapped operation and leaves
the breaker unchanged. -/
theorem circuitBreaker_trip (n : ℕ) (tmo : ℤ) (hoa : ℕ) (ts : List ℤ)
    (hn : 0 < n) (hlen : ts.length = n) :
    ((runCalls (CircuitBreaker.init n tmo hoa)
        (ts.map (fun t => (t, false)))).state = .opened) ∧
    (∀ (cb : CircuitBreaker) (now t : ℤ) (op : Bool),
        cb.state = .opened → cb.lastFailureTime = some t →
        now - t < cb.timeoutSeconds →
        call cb now op = (⟨false, .openError⟩, cb)) := by
  constructor
  · apply runFailures_trips
    · rfl
    · simpa [CircuitBreaker.init] using hn
    · simp [CircuitBreaker.init, hlen]
  · intro cb now t op hst hlf htm
    have hsar : shouldAttemptReset cb now = false := by
      simp [shouldAttemptReset, hlf]
      omega
    simp [call, hst, hsar]

/-- Witness for `circuitBreaker_trip`: `failure_threshold = 3`, three failing
calls at times 0, 1, 2 open the breaker; a call at time 30 (before the
60-second cooldown) is rejected without invoking the operation. -/
theorem circuitBreaker_trip_witness :
    0 < 3 ∧ ([(0 : ℤ), 1, 2] : List ℤ).length = 3 ∧
      ((runCalls (CircuitBreaker.init 3 60 3)
          ([(0 : ℤ), 1, 2].map (fun t => (t, false)))).state = .opened) ∧
      (call (runCalls (CircuitBreaker.init 3 60 3)
          ([(0 : ℤ), 1, 2].map (fun t => (t, false)))) 30 true
        = (⟨false, .openError⟩,
            runCalls (CircuitBreaker.init 3 60 3)
              ([(0 : ℤ), 1, 2].map (fun t => (t, false))))) :=
  ⟨by decide, by decide,
    (circuitBreaker_trip 3 60 3 [0, 1, 2] (by decide) (by decide)).1,
    (circuitBreaker_trip 3 60 3 [0, 1, 2] (by decide) (by decide)).2
      _ 30 2 true (by decide) (by decide) (by decide)⟩

theorem runSuccesses_closes :
    ∀ (ts : List ℤ) (cb : CircuitBreaker),
      cb.state = .halfOpen →
      cb.halfOpenSuccessCount < cb.halfOpenAttempts →
      cb.halfOpenSuccessCount + ts.length = cb.halfOpenAttempts →
      (runCalls cb (ts.map (fun t => (t, true)))).state = .closed ∧
      (runCalls cb (ts.map (fun t => (t, true)))).failureCount = 0 := by
  intro ts
  induction ts with
  | nil =>
    intro cb _ hlt hsum
    simp only [List.length_nil, Nat.add_zero] at hsum
    omega
  | cons now rest ih =>
    intro cb hst hlt hsum
    have hcall : (call cb now true).2 = onSuccess cb := by
      simp [call, hst]
    rw [List.map_cons, runCalls_cons]
    simp only at hcall
    rw [hcall]
    simp only [List.length_cons] at hsum
    by_cases hth : cb.halfOpenAttempts ≤ cb.halfOpenSuccessCount + 1
    · have hrest : rest = [] := by
        have : rest.length = 0 := by omega
        exact List.eq_nil_of_length_eq_zero this
      have hreset : onSuccess cb
          = reset { cb with
              halfOpenSuccessCount := cb.halfOpenSuccessCount + 1 } := by
        simp [onSuccess, hst, hth]
      subst hrest
      rw [hreset]
      exact ⟨rfl, rfl⟩
    · have hnext : onSuccess cb
          = { cb with halfOpenSuccessCount := cb.halfOpenSuccessCount + 1 } := by
        simp [onSuccess, hst, hth]
      rw [hnext]
      apply ih
      · exact hst
      · simp only
        omega
      · simp only
        omega

/-- C3: a call on an OPEN breaker with at least `timeout_seconds` elapsed
since `last_failure_time` moves the state to HALF_OPEN and does invoke the
wrapped operation (the post-state is the HALF_OPEN breaker updated by the
operation's outcome); `half_open_attempts` consecutive successes from
HALF_OPEN close the breaker and reset `failure_count` to 0; and a single
failing call in HALF_OPEN re-opens it. -/
theorem circuitBreaker_recovery :
    (∀ (cb : CircuitBreaker) (now t : ℤ) (op : Bool),
        cb.state = .opened → cb.lastFailureTime = some t →
        cb.timeoutSeconds ≤ now - t →
        (call cb now op).1.invoked = true ∧
        (call cb now op).2
          = (if op then onSuccess { cb with state := .halfOpen }
             else onFailure { cb with state := .halfOpen } now)) ∧
    (∀ (cb : CircuitBreaker) (ts : List ℤ),
        cb.state = .halfOpen → cb.halfOpenSuccessCount = 0 →
        0 < cb.halfOpenAttempts → ts.length = cb.halfOpenAttempts →
        (runCalls cb (ts.map (fun t => (t, true)))).state = .closed ∧
        (runCalls cb (ts.map (fun t => (t, true)))).failureCount = 0) ∧
    (∀ (cb : CircuitBreaker) (now : ℤ),
        cb.state = .halfOpen → ((call cb now false).2).state = .opened) := by
  refine ⟨?_, ?_, ?_⟩
  · intro cb now t op hst hlf htm
    have hsar : shouldAttemptReset cb now = true := by
      simp [shouldAttemptReset, hlf]
      omega
    cases op
    · constructor
      · simp [call, hst, hsar]
      · simp [call, hst, hsar]
    · constructor
      · simp [call, hst, hsar]
      · simp [call, hst, hsar]
  · intro cb ts h1 h2 h3 h4
    exact runSuccesses_closes ts cb h1 (by omega) (by omega)
  · intro cb now h1
    simp [call, h1, onFailure, trip]

/-- Witness for `circuitBreaker_recovery`: a breaker opened at time 0 probed
at time 60; a HALF_OPEN breaker with `half_open_attempts = 2` closed by two
successes; a HALF_OPEN breaker re-opened by one failure. -/
theorem circuitBreaker_recovery_witness :
    ((call (runCalls (CircuitBreaker.init 1 60 2) [((0 : ℤ), false)])
        60 true).1.invoked = true) ∧
    ((runCalls (⟨3, 60, 2, 1, some 0, .halfOpen, 0⟩ : CircuitBreaker)
        ([(100 : ℤ), 101].map (fun t => (t, true)))).state = .closed) ∧
    ((call (⟨3, 60, 2, 1, some 0, .halfOpen, 0⟩ : CircuitBreaker)
        200 false).2.state = .opened) :=
  ⟨((circuitBreaker_recovery).1 (runCalls (CircuitBreaker.init 1 60 2)
      [((0 : ℤ), false)]) 60 0 true (by decide) (by decide) (by decide)).1,
   ((circuitBreaker_recovery).2.1 (⟨3, 60, 2, 1, some 0, .halfOpen, 0⟩ :
      CircuitBreaker) [100, 101] (by decide) (by decide) (by decide)
      (by decide)).1,
   (circuitBreaker_recovery).2.2 (⟨3, 60, 2, 1, some 0, .halfOpen, 0⟩ :
      CircuitBreaker) 200 (by decide)⟩

theorem onSuccess_hosc (cb : CircuitBreaker)
    (h0 : cb.state ≠ .halfOpen → cb.halfOpenSuccessCount = 0) :
    (onSuccess cb).state ≠ .halfOpen → (onSuccess cb).halfOpenSuccessCount = 0 := by
  by_cases hh : cb.state = .halfOpen
  · by_cases hth : cb.halfOpenAttempts ≤ cb.halfOpenSuccessCount + 1
    · simp [onSuccess, hh, hth, reset]
    · simp [onSuccess, hh, hth]
  · by_cases hc : cb.state = .closed
    · simp only [onSuccess, hh, if_false, hc, if_true]
      intro _
      exact h0 hh
    · simp only [onSuccess, hh, if_false, hc]
      intro _
      exact h0 hh

theorem onFailure_hosc (cb : CircuitBreaker) (now : ℤ)
    (h0 : cb.state ≠ .halfOpen → cb.halfOpenSuccessCount = 0) :
    (onFailure cb now).state ≠ .halfOpen →
      (onFailure cb now).halfOpenSuccessCount = 0 := by
  by_cases hh : cb.state = .halfOpen
  · simp [onFailure, hh, trip]
  · by_cases hth : cb.failureThreshold ≤ cb.failureCount + 1
    · simp [onFailure, hh, hth, trip]
    · simp only [onFailure, hh, if_false, hth]
      intro _
      exact h0 hh

theorem call_hosc_step (cb : CircuitBreaker) (now : ℤ) (op : Bool)
    (h0 : cb.state ≠ .halfOpen → cb.halfOpenSuccessCount = 0) :
    (call cb now op).2.state ≠ .halfOpen →
      (call cb now op).2.halfOpenSuccessCount = 0 := by
  by_cases ho : cb.state = .opened
  · by_cases hsar : shouldAttemptReset cb now = true
    · cases op
      · simp only [call, ho, if_true, hsar, Bool.false_eq_true, if_false]
        exact onFailure_hosc _ now (fun hne => absurd rfl hne)
      · simp only [call, ho, if_true, hsar]
        exact onSuccess_hosc _ (fun hne => absurd rfl hne)
    · have hsar' : shouldAttemptReset cb now = false := by
        cases h : shouldAttemptReset cb now
        · rfl
        · exact absurd h hsar
      simp only [call, ho, if_true, hsar', Bool.false_eq_true, if_false]
      intro _
      apply h0
      rw [ho]
      decide
  · cases op
    · simp only [call, ho, if_false, Bool.false_eq_true]
      exact onFailure_hosc cb now h0
    · simp only [call, ho, if_false, if_true]
      exact onSuccess_hosc cb h0

theorem hosc_zero_runCalls (evs : List (ℤ × Bool)) :
    ∀ cb : CircuitBreaker,
      (cb.state ≠ .halfOpen → cb.halfOpenSuccessCount = 0) →
      ((runCalls cb evs).state ≠ .halfOpen →
        (runCalls cb evs).halfOpenSuccessCount = 0) := by
  induction evs with
  | nil => intro cb h; exact h
  | cons e evs ih =>
    intro cb h
    rw [runCalls_cons]
    exact ih _ (call_hosc_step cb e.1 e.2 h)

theorem call_close_resets (cb : CircuitBreaker) (now : ℤ) (op : Bool)
    (h1 : cb.state ≠ .closed) (h2 : (call cb now op).2.state = .closed) :
    (call cb now op).2.failureCount = 0 := by
  by_cases ho : cb.state = .opened
  · by_cases hsar : shouldAttemptReset cb now = true
    · cases op
      · simp only [call, ho, if_true, hsar, Bool.false_eq_true, if_false] at h2
        simp [onFailure, trip] at h2
      · simp only [call, ho, if_true, hsar] at h2 ⊢
        by_cases hth : cb.halfOpenAttempts ≤ cb.halfOpenSuccessCount + 1
        · simp [onSuccess, hth, reset]
        · simp [onSuccess, hth] at h2
    · have hsar' : shouldAttemptReset cb now = false := by
        cases h : shouldAttemptReset cb now
        · rfl
        · exact absurd h hsar
      simp only [call, ho, if_true, hsar', Bool.false_eq_true, if_false] at h2
      exact absurd h2 (by decide)
  · have hh : cb.state = .halfOpen := by
      cases hstate : cb.state
      · exact absurd hstate h1
      · exact absurd hstate ho
      · rfl
    cases op
    · simp only [call, ho, if_false, Bool.false_eq_true] at h2
      simp [onFailure, hh, trip] at h2
    · simp only [call, ho, if_false, if_true] at h2 ⊢
      by_cases hth : cb.halfOpenAttempts ≤ cb.halfOpenSuccessCount + 1
      · simp [onSuccess, hh, hth, reset]
      · simp [onSuccess, hh, hth] at h2

/-- C9: in every breaker state reachable by any sequence of calls from a
freshly constructed breaker, `half_open_success_count = 0` whenever the state
is not HALF_OPEN; and whenever a further call moves the state into CLOSED
from a non-CLOSED state, it sets `failure_count` to 0. -/
theorem circuitBreaker_invariants (ft : ℕ) (tmo : ℤ) (hoa : ℕ)
    (evs : List (ℤ × Bool)) :
    ((runCalls (CircuitBreaker.init ft tmo hoa) evs).state ≠ .halfOpen →
      (runCalls (CircuitBreaker.init ft tmo hoa) evs).halfOpenSuccessCount = 0) ∧
    (∀ (now : ℤ) (op : Bool),
      (runCalls (CircuitBreaker.init ft tmo hoa) evs).state ≠ .closed →
      ((call (runCalls (CircuitBreaker.init ft tmo hoa) evs) now op).2).state
          = .closed →
      ((call (runCalls (CircuitBreaker.init ft tmo hoa) evs) now
          op).2).failureCount = 0) := by
  constructor
  · exact hosc_zero_runCalls evs _ (fun _ => rfl)
  · intro now op h1 h2
    exact call_close_resets _ now op h1 h2

/-- Witness for `circuitBreaker_invariants`: the fresh breaker is CLOSED with
zero half-open successes; a breaker opened by one failure and then probed
successfully after the cooldown closes with `failure_count = 0`. -/
theorem circuitBreaker_invariants_witness :
    ((runCalls (CircuitBreaker.init 1 60 1) []).halfOpenSuccessCount = 0) ∧
    ((call (runCalls (CircuitBreaker.init 1 60 1) [((0 : ℤ), false)])
        100 true).2.failureCount = 0) :=
  ⟨(circuitBreaker_invariants 1 60 1 []).1 (by decide),
   (circuitBreaker_invariants 1 60 1 [((0 : ℤ), false)]).2 100 true
     (by decide) (by decide)⟩

/-! ### RBAC lemmas -/

theorem ofValue_value : ∀ p : Permission, Permission.ofValue p.value = some p := by
  intro p
  cases p <;> rfl

theorem mapM_map_ofValue :
    ∀ l : List Permission,
      (l.map Permission.value).mapM Permission.ofValue = some l := by
  intro l
  induction l with
  | nil => rfl
  | cons p l ih =>
    rw [List.map_cons, List.mapM_cons, ofValue_value, ih]
    rfl

theorem mapM_eq_none_of_mem :
    ∀ (l : List String) (s : String), s ∈ l → Permission.ofValue s = none →
      l.mapM Permission.ofValue = none := by
  intro l
  induction l with
  | nil =>
    intro s hs _
    simp at hs
  | cons a l ih =>
    intro s hs hbad
    rw [List.mapM_cons]
    rcases List.mem_cons.1 hs with rfl | hs'
    · rw [hbad]
      rfl
    · rw [ih s hs' hbad]
      cases Permission.ofValue a <;> rfl

/-- C6: `verify_token ∘ create_token` round-trips: the returned payload's
`user_id`, `role` and `permissions` are exactly the static table entry for
the role; `has_permission` on that token is true for exactly the table's
permissions; and ADMIN's permission set contains every other role's. -/
theorem token_round_trip (mgr : RBACManager) (uid : String) (role : Role)
    (nowC nowV : ℤ) (h : nowV < nowC + 24 * 3600) :
    verifyToken mgr (createToken mgr uid role 24 nowC) nowV
        = .ok { userId := uid, role := role.value
                permissions := (rolePermissions role).map Permission.value
                exp := nowC + 24 * 3600, iat := nowC } ∧
    (∀ p : Permission,
        hasPermission mgr (createToken mgr uid role 24 nowC) nowV p
          = decide (p ∈ rolePermissions role)) ∧
    (∀ (r : Role) (p : Permission),
        p ∈ rolePermissions r → p ∈ rolePermissions .admin) := by
  have hne : ¬(nowC + 86400 ≤ nowV) := by omega
  have hver : verifyToken mgr (createToken mgr uid role 24 nowC) nowV
      = .ok { userId := uid, role := role.value
              permissions := (rolePermissions role).map Permission.value
              exp := nowC + 24 * 3600, iat := nowC } := by
    simp [verifyToken, jwtDecode, createToken, jwtEncode, hne]
  refine ⟨hver, ?_, ?_⟩
  · intro p
    simp only [hasPermission, hver, mapM_map_ofValue]
  · intro r p _
    cases p <;> simp [rolePermissions]

/-- Witness for `token_round_trip`: a VIEWER token verified at issuance time
carries `view_reports`. -/
theorem token_round_trip_witness :
    ((0 : ℤ) < 0 + 24 * 3600) ∧
      hasPermission ⟨testSecret⟩ (createToken ⟨testSecret⟩ "alice" .viewer 24 0)
        0 .viewReports = true := by
  refine ⟨by norm_num, ?_⟩
  rw [(token_round_trip ⟨testSecret⟩ "alice" Role.viewer 0 0
    (by norm_num)).2.1 Permission.viewReports]
  decide

/-- C10: a validly signed, unexpired token whose embedded permission list
contains a string that is not one of the five `Permission` values makes
`has_permission` return `false` for every required permission — the
`ValueError` from the `Permission(p)` constructor is caught, and no exception
escapes (the embedded function is total). -/
theorem has_permission_unknown_string (mgr : RBACManager) (t : JwtToken)
    (now : ℤ) (s : String)
    (hsig : t.sigKey = mgr.jwtSecret) (hexp : now < t.payload.exp)
    (hs : s ∈ t.payload.permissions) (hbad : Permission.ofValue s = none) :
    ∀ required : Permission, hasPermission mgr t now required = false := by
  intro required
  have hne : ¬(t.payload.exp ≤ now) := by omega
  have hver : verifyToken mgr t now = .ok t.payload := by
    simp [verifyToken, jwtDecode, hsig, hne]
  have hmap : t.payload.permissions.mapM Permission.ofValue = none :=
    mapM_eq_none_of_mem _ s hs hbad
  simp only [hasPermission, hver, hmap]

/-- Witness for `has_permission_unknown_string`: a token listing
`view_reports` together with the unknown string `bogus` denies even
`view_reports`. -/
theorem has_permission_unknown_string_witness :
    ("bogus" ∈ ["view_reports", "bogus"]) ∧
      hasPermission ⟨testSecret⟩
        (jwtEncode ⟨"alice", "viewer", ["view_reports", "bogus"], 99, 0⟩
          testSecret) 0 .viewReports = false :=
  ⟨by decide,
    has_permission_unknown_string ⟨testSecret⟩
      (jwtEncode ⟨"alice", "viewer", ["view_reports", "bogus"], 99, 0⟩
        testSecret) 0 "bogus" rfl (by decide) (by decide) (by decide)
      .viewReports⟩

/-- C4 counterexample: both failure modes of `verify_token` surface as the
same catchable error kind.  An expired token (created with
`expires_in_hours = 0` and verified immediately) and a corrupted token (its
signature does not verify) both raise `ValueError` — the error classes are
equal, so the claim that the two failures carry distinct catchable error
kinds is false at this input. -/
theorem verify_token_error_kind_counterexample :
    verifyToken ⟨testSecret⟩ (createToken ⟨testSecret⟩ "alice" .viewer 0 0) 0
        = .error ⟨.valueError, "Token has expired"⟩ ∧
    verifyToken ⟨testSecret⟩
        (jwtEncode ⟨"alice", "viewer", ["view_reports"], 99, 0⟩ "corrupted") 0
        = .error ⟨.valueError, "Invalid token: Signature verification failed"⟩ ∧
    ¬ (errClass (verifyToken ⟨testSecret⟩
          (createToken ⟨testSecret⟩ "alice" .viewer 0 0) 0)
        ≠ errClass (verifyToken ⟨testSecret⟩
          (jwtEncode ⟨"alice", "viewer", ["view_reports"], 99, 0⟩ "corrupted")
          0)) :=
  ⟨rfl, rfl, fun h => h rfl⟩

/-- C4 (amended): `verify_token` raises `ValueError` for both failure modes;
the two are distinguished by message, not by exception class: an expired
token (in particular `create_token(..., expires_in_hours=0)` verified at or
after issuance) raises `ValueError("Token has expired")`, while a token
whose signature does not verify raises
`ValueError("Invalid token: ...")`, and the two messages differ. -/
theorem verify_token_error_messages (mgr : RBACManager) (uid : String)
    (role : Role) (nowC nowV : ℤ) (t : JwtToken)
    (hnow : nowC ≤ nowV) (hsig : t.sigKey ≠ mgr.jwtSecret) :
    verifyToken mgr (createToken mgr uid role 0 nowC) nowV
        = .error ⟨.valueError, "Token has expired"⟩ ∧
    verifyToken mgr t nowV
        = .error ⟨.valueError, "Invalid token: Signature verification failed"⟩ ∧
    ("Token has expired" : String)
        ≠ "Invalid token: Signature verification failed" := by
  refine ⟨?_, ?_, by decide⟩
  · simp [verifyToken, jwtDecode, createToken, jwtEncode, hnow]
  · simp [verifyToken, jwtDecode, hsig]

/-- Witness for `verify_token_error_messages` at concrete inputs. -/
theorem verify_token_error_messages_witness :
    ((0 : ℤ) ≤ 0) ∧
      verifyToken ⟨testSecret⟩ (createToken ⟨testSecret⟩ "alice" .viewer 0 0) 0
        = .error ⟨.valueError, "Token has expired"⟩ :=
  ⟨le_refl 0,
    (verify_token_error_messages ⟨testSecret⟩ "alice" .viewer 0 0
      (jwtEncode ⟨"alice", "viewer", ["view_reports"], 99, 0⟩ "corrupted")
      (le_refl 0) (by decide)).1⟩

/-- C8 counterexample: `RBACManager` construction does not reject a known
placeholder secret.  The repository's own validators
(`src/security/env_validator.py`, `config/settings.py`) name this exact
placeholder, yet `RBACManager.__init__` accepts it because
`_get_jwt_secret` only checks presence and length — so the claim that
construction fails on a known placeholder value is false at this input. -/
theorem rbac_init_placeholder_counterexample :
    32 ≤ placeholderSecret.length ∧
    RBACManager.init (some placeholderSecret) = .ok ⟨placeholderSecret⟩ := by
  constructor
  · decide
  · rfl

/-- C8 (amended): `RBACManager` construction fails with `ValueError` exactly
when the secret is unavailable (unset or empty) or shorter than 32
characters; placeholder values of sufficient length are accepted (the
placeholder check lives in the separate config validators, not in
`RBACManager`); and no per-call secret validation happens —
`create_token`/`verify_token` round-trip on a manager holding an arbitrary,
even one-character, secret. -/
theorem rbac_init_validation :
    (∀ env : Option String,
        (∃ e : PyError, RBACManager.init env = .error e ∧ e.cls = .valueError)
          ↔ (env = none ∨ env = some "" ∨
              ∃ s, env = some s ∧ s.length < 32)) ∧
    (∀ (secret uid : String) (role : Role) (now : ℤ),
        verifyToken ⟨secret⟩ (createToken ⟨secret⟩ uid role 24 now) now
          = .ok { userId := uid, role := role.value
                  permissions := (rolePermissions role).map Permission.value
                  exp := now + 24 * 3600, iat := now }) := by
  constructor
  · intro env
    constructor
    · rintro ⟨e, he, _⟩
      match env with
      | none => exact Or.inl rfl
      | some s =>
        by_cases h0 : s = ""
        · subst h0
          exact Or.inr (Or.inl rfl)
        · by_cases h32 : s.length < 32
          · exact Or.inr (Or.inr ⟨s, rfl, h32⟩)
          · simp [RBACManager.init, getJwtSecret, h0, h32] at he
    · rintro (rfl | rfl | ⟨s, rfl, h32⟩)
      · exact ⟨_, rfl, rfl⟩
      · exact ⟨_, rfl, rfl⟩
      · by_cases h0 : s = ""
        · subst h0
          exact ⟨_, rfl, rfl⟩
        · refine ⟨⟨.valueError,
            "JWT_SECRET must be at least 32 characters long"⟩, ?_, rfl⟩
          simp [RBACManager.init, getJwtSecret, h0, h32]
  · intro secret uid role now
    have hle : ¬(now + 86400 ≤ now) := by omega
    simp [verifyToken, jwtDecode, createToken, jwtEncode, hle]

/-- Witness for `rbac_init_validation`: a 5-character secret is rejected with
`ValueError` at construction, and a 1-character secret still round-trips a
token per call. -/
theorem rbac_init_validation_witness :
    (∃ e : PyError,
        RBACManager.init (some "short") = .error e ∧ e.cls = .valueError) ∧
      verifyToken ⟨"x"⟩ (createToken ⟨"x"⟩ "alice" .viewer 24 0) 0
        = .ok { userId := "alice", role := Role.viewer.value
                permissions := (rolePermissions .viewer).map Permission.value
                exp := 0 + 24 * 3600, iat := 0 } :=
  ⟨(rbac_init_validation.1 (some "short")).mpr
      (Or.inr (Or.inr ⟨"short", rfl, by decide⟩)),
    rbac_init_validation.2 "x" "alice" .viewer 0⟩
